import Mathlib

/-!
Verification model of the Mini-Redis server (`src/server.py`).

The wire codec (`ProtocolHandler`) and the per-connection session loop
(`Server.connection_handler` / `Server.get_response`) are embedded shallowly:

* a byte stream is a `List Nat` (the bytes the peer will ever send; the end of
  the list is end-of-stream of the socket file object);
* Python `str` values are lists of Unicode code points (`List Nat`), with
  UTF-8 encode/decode modelled explicitly in strict mode;
* Python exceptions are an error type `PyErr` carried in `Except`;
* the recursive decoder is defined with an explicit fuel parameter so that it
  is structurally recursive; the wrapper `handle_request` supplies fuel
  `length + 1`, which exceeds the number of frames any stream can hold, since
  every decoded frame consumes at least its one-byte tag.

An uncaught exception in the per-connection loop ends that greenlet only; the
hosting process keeps serving (gevent `StreamServer` behaviour).  This is
modelled by `SessEnd.crashed`: the session function is total and a crash is an
ordinary terminal value of the model, never a failure of the whole model.
-/

/-- ASCII/Unicode code points of a Lean string literal, used to write the
byte-level and code-point-level literals of the model. -/
def asc (s : String) : List Nat := s.data.map Char.toNat

/-- The two-byte line terminator CR LF. -/
def crlf : List Nat := [13, 10]

/-- Whitespace set of Python `str.split()` (ASCII part). -/
def pyWs (c : Nat) : Bool := c = 32 || c = 9 || c = 10 || c = 13 || c = 12 || c = 11

/-- ASCII decimal digit test, as used by `int()` on a bytes object. -/
def isDigit (b : Nat) : Bool := 48 ≤ b && b ≤ 57

/-- `socket_file.readline()`: bytes up to and including the first LF;
at end-of-stream the partial line read so far is returned. -/
def readline : List Nat → List Nat × List Nat
  | [] => ([], [])
  | b :: rest =>
    if b = 10 then ([10], rest)
    else
      let (l, r) := readline rest
      (b :: l, r)

/-- `bytes.rstrip(b"\x5cr\x5cn")`: remove every trailing CR or LF byte. -/
def rstripCrLf (bs : List Nat) : List Nat :=
  (bs.reverse.dropWhile (fun b => b == 13 || b == 10)).reverse

/-- `socket_file.read(n)`: for `n ≥ 0` up to `n` bytes (fewer only at
end-of-stream); for negative `n` the whole remaining stream. -/
def pyRead (n : Int) (bs : List Nat) : List Nat × List Nat :=
  if n < 0 then (bs, []) else (bs.take n.toNat, bs.drop n.toNat)

/-- Python slicing `data[:-2]`. -/
def pySliceToMinus2 (bs : List Nat) : List Nat := bs.take (bs.length - 2)

/-- Decimal digits of a natural number, fuelled so that the definition is
structurally recursive; `fuel` bounds the number of division steps. -/
def natToDecF : Nat → Nat → List Nat
  | 0, n => [48 + n % 10]
  | fuel + 1, n => if n < 10 then [48 + n] else natToDecF fuel (n / 10) ++ [48 + n % 10]

/-- ASCII decimal rendering of a natural number (`b"%d" % n` for `n ≥ 0`);
fuel `n` always suffices since a number has at most `n + 1` digits. -/
def natToDec (n : Nat) : List Nat := natToDecF n n

/-- ASCII decimal rendering of an integer (`b"%d" % n`). -/
def intToDec (n : Int) : List Nat :=
  if n < 0 then 45 :: natToDec (-n).toNat else natToDec n.toNat

/-- Digit-string parser: the core of `int()` once sign and whitespace are
handled; fails on an empty or non-digit string. -/
def parseDigits (ds : List Nat) : Option Nat :=
  if ds.isEmpty then none
  else if ds.all isDigit then some (ds.foldl (fun a d => a * 10 + (d - 48)) 0) else none

/-- Python `int(bytes)`: optional surrounding ASCII whitespace, optional
sign, then a non-empty digit string. -/
def parseIntBytes (bs : List Nat) : Option Int :=
  match ((bs.dropWhile pyWs).reverse.dropWhile pyWs).reverse with
  | 43 :: ds => (parseDigits ds).map Int.ofNat
  | 45 :: ds => (parseDigits ds).map (fun n => -(n : Int))
  | ds => (parseDigits ds).map Int.ofNat

/-- UTF-8 encoding of one code point (written with `/`, `%`, `+`, which agree
with the usual shift/mask formulation because the or-ed bit ranges are
disjoint). -/
def utf8EncodeChar (n : Nat) : List Nat :=
  if n < 0x80 then [n]
  else if n < 0x800 then [0xC0 + n / 64, 0x80 + n % 64]
  else if n < 0x10000 then [0xE0 + n / 4096, 0x80 + n / 64 % 64, 0x80 + n % 64]
  else [0xF0 + n / 262144, 0x80 + n / 4096 % 64, 0x80 + n / 64 % 64, 0x80 + n % 64]

/-- UTF-8 encoding of a string of code points (`str.encode("utf-8")`). -/
def utf8Encode (s : List Nat) : List Nat := s.flatMap utf8EncodeChar

/-- Continuation-byte test for strict UTF-8 decoding. -/
def isCont (b : Nat) : Bool := 0x80 ≤ b && b < 0xC0

/-- One step of strict UTF-8 decoding: `none` on a stray continuation byte,
an overlong form, a surrogate, a value above U+10FFFF, or a truncated
sequence — exactly the forms CPython `errors="strict"` rejects. -/
def utf8DecodeOne : List Nat → Option (Nat × List Nat)
  | [] => none
  | b :: rest =>
    if b < 0x80 then some (b, rest)
    else if b < 0xC2 then none
    else if b < 0xE0 then
      match rest with
      | b1 :: r => if isCont b1 then some ((b - 0xC0) * 64 + (b1 - 0x80), r) else none
      | [] => none
    else if b < 0xF0 then
      match rest with
      | b1 :: b2 :: r =>
        if isCont b1 && isCont b2 then
          let n := (b - 0xE0) * 4096 + (b1 - 0x80) * 64 + (b2 - 0x80)
          if n < 0x800 || (0xD800 ≤ n && n < 0xE000) then none else some (n, r)
        else none
      | _ => none
    else if b < 0xF5 then
      match rest with
      | b1 :: b2 :: b3 :: r =>
        if isCont b1 && isCont b2 && isCont b3 then
          let n := (b - 0xF0) * 262144 + (b1 - 0x80) * 4096 + (b2 - 0x80) * 64 + (b3 - 0x80)
          if n < 0x10000 || 0x110000 ≤ n then none else some (n, r)
        else none
      | _ => none
    else none

/-- Fuelled strict UTF-8 decoding loop; each step consumes at least one byte,
so fuel `length` suffices. -/
def utf8DecodeF : Nat → List Nat → Option (List Nat)
  | _, [] => some []
  | 0, _ :: _ => none
  | fuel + 1, bs =>
    match utf8DecodeOne bs with
    | some (c, rest) => (utf8DecodeF fuel rest).map (c :: ·)
    | none => none

/-- `bytes.decode("utf-8", errors="strict")`. -/
def utf8Decode (bs : List Nat) : Option (List Nat) := utf8DecodeF bs.length bs

/-- The Python values the server passes around: the decoder's products
(`str`, `int`, `Error`, `list`, `dict`, `None`), plus `bytes` (accepted by the
encoder, never produced by the decoder) and `float`, standing for any value
outside the encoder's closed set (only its runtime class matters: it is not
`str`/`bytes`/`int`/`Error`/`list`/`tuple`/`dict`/`None`). -/
inductive Value where
  | str (s : List Nat)
  | int (n : Int)
  | err (m : List Nat)
  | bytes (b : List Nat)
  | list (items : List Value)
  | dict (pairs : List (Value × Value))
  | null
  | float (id : Nat)

mutual
/-- Python `==` on the modelled values (structural on this closed set). -/
def beqV : Value → Value → Bool
  | .str a, .str b => a == b
  | .int a, .int b => a == b
  | .err a, .err b => a == b
  | .bytes a, .bytes b => a == b
  | .list a, .list b => beqVList a b
  | .dict a, .dict b => beqVPairs a b
  | .null, .null => true
  | .float a, .float b => a == b
  | _, _ => false
def beqVList : List Value → List Value → Bool
  | [], [] => true
  | a :: as_, b :: bs => beqV a b && beqVList as_ bs
  | _, _ => false
def beqVPairs : List (Value × Value) → List (Value × Value) → Bool
  | [], [] => true
  | (k1, v1) :: as_, (k2, v2) :: bs => beqV k1 k2 && beqV v1 v2 && beqVPairs as_ bs
  | _, _ => false
end

mutual
/-- Size of a value, bounding the recursion depth and the number of frames of
its encoding. -/
def vsize : Value → Nat
  | .str _ => 1
  | .int _ => 1
  | .err _ => 1
  | .bytes _ => 1
  | .null => 1
  | .float _ => 1
  | .list items => 1 + vsizeList items
  | .dict pairs => 1 + vsizePairs pairs
def vsizeList : List Value → Nat
  | [] => 0
  | v :: rest => vsize v + vsizeList rest
def vsizePairs : List (Value × Value) → Nat
  | [] => 0
  | (k, v) :: rest => vsize k + vsize v + vsizePairs rest
end

/-- A valid Unicode scalar value: below U+110000 and not a surrogate.
Python `str` code points produced by strict UTF-8 decoding satisfy this. -/
def validCp (n : Nat) : Bool := n < 0x110000 && !(0xD800 ≤ n && n < 0xE000)

/-- Unhashable Python values: only `list` and `dict` among the modelled
values; using one as a dictionary key raises `TypeError`. -/
def unhashable : Value → Bool
  | .list _ => true
  | .dict _ => true
  | _ => false

/-- First keys are not `==`-equal to any later key (the shape `dict`
construction leaves a pair list in). -/
def noDupKeysB : List (Value × Value) → Bool
  | [] => true
  | (k, _) :: rest => rest.all (fun p => !beqV k p.1) && noDupKeysB rest

/-- `[k1, v1, k2, v2, ...]`: the frame sequence a Map body carries. -/
def interleavePairs : List (Value × Value) → List Value
  | [] => []
  | (k, v) :: rest => k :: v :: interleavePairs rest

/-- Test for the `bytes` variant (which the decoder never produces). -/
def isBytesV : Value → Bool
  | .bytes _ => true
  | _ => false

mutual
/-- Values constructible from the wire grammar, i.e. in the image of the
decoder: well-formed text (valid scalar values; error messages line-safe,
with no CR or LF), no `bytes` and no `float` (the decoder never yields
them), and maps with hashable, pairwise distinct keys. -/
def wfB : Value → Bool
  | .str s => s.all validCp
  | .int _ => true
  | .err m => m.all (fun c => validCp c && !(c == 13) && !(c == 10))
  | .bytes _ => false
  | .null => true
  | .float _ => false
  | .list items => wfList items
  | .dict pairs => noDupKeysB pairs && wfPairs pairs
def wfList : List Value → Bool
  | [] => true
  | v :: rest => wfB v && wfList rest
def wfPairs : List (Value × Value) → Bool
  | [] => true
  | (k, v) :: rest => wfB k && !unhashable k && wfB v && wfPairs rest
end

/-- Python exceptions that can reach the connection loop. `fuelOut` is an
artefact of the fuel encoding of recursion and is never returned when the
fuel exceeds the input length. -/
inductive PyErr where
  | disconnect
  | commandError (msg : List Nat)
  | valueError
  | unicodeError
  | typeError
  | attributeError
  | fuelOut
  deriving DecidableEq

/-- A Python `dict` as an insertion-ordered association list. -/
abbrev Store := List (Value × Value)

/-- `d[k] = v`: overwrite in place if an equal key exists (the original key
object and its position are kept), otherwise append. -/
def dictInsert : Store → Value → Value → Store
  | [], k, v => [(k, v)]
  | (k0, v0) :: rest, k, v =>
    if beqV k0 k then (k0, v) :: rest else (k0, v0) :: dictInsert rest k v

/-- `d.get(k)` / `k in d`. -/
def storeLookup : Store → Value → Option Value
  | [], _ => none
  | (k0, v0) :: rest, k => if beqV k0 k then some v0 else storeLookup rest k

/-- `del d[k]` for a key known to be present. -/
def storeErase (kv : Store) (k : Value) : Store :=
  kv.filter (fun p => !beqV p.1 k)

/-- `elements[::2]`. -/
def sliceEvens : List α → List α
  | [] => []
  | [a] => [a]
  | a :: _ :: rest => a :: sliceEvens rest

/-- `elements[1::2]`. -/
def sliceOdds : List α → List α
  | [] => []
  | [_] => []
  | _ :: b :: rest => b :: sliceOdds rest

/-- `dict(zip(...))` body: insert the pairs left to right, raising
`TypeError` at the first unhashable key. -/
def dictBuild (acc : Store) : List (Value × Value) → Except PyErr Store
  | [] => .ok acc
  | (k, v) :: rest =>
    if unhashable k then .error .typeError else dictBuild (dictInsert acc k v) rest

/-- `dict(zip(keys, values))` starting from the empty dictionary. -/
def dictFromPairs (ps : List (Value × Value)) : Except PyErr Store := dictBuild [] ps

/-- `ProtocolHandler.handle_simple_string`. -/
def handle_simple_string (bs : List Nat) : Except PyErr (Value × List Nat) :=
  let (line, rest) := readline bs
  match utf8Decode (rstripCrLf line) with
  | some s => .ok (.str s, rest)
  | none => .error .unicodeError

/-- `ProtocolHandler.handle_error`. -/
def handle_error (bs : List Nat) : Except PyErr (Value × List Nat) :=
  let (line, rest) := readline bs
  match utf8Decode (rstripCrLf line) with
  | some s => .ok (.err s, rest)
  | none => .error .unicodeError

/-- `ProtocolHandler.handle_integer`. -/
def handle_integer (bs : List Nat) : Except PyErr (Value × List Nat) :=
  let (line, rest) := readline bs
  match parseIntBytes (rstripCrLf line) with
  | some n => .ok (.int n, rest)
  | none => .error .valueError

/-- `ProtocolHandler.handle_string`: parse the declared length, `-1` is the
null bulk string, otherwise read `length + 2` bytes and drop the last two;
the payload is then UTF-8 decoded strictly. -/
def handle_string (bs : List Nat) : Except PyErr (Value × List Nat) :=
  let (line, rest) := readline bs
  match parseIntBytes (rstripCrLf line) with
  | none => .error .valueError
  | some length =>
    if length = -1 then .ok (.null, rest)
    else
      let (data0, rest2) := pyRead (length + 2) rest
      match utf8Decode (pySliceToMinus2 data0) with
      | some s => .ok (.str s, rest2)
      | none => .error .unicodeError

/-- `[self.handle_request(socket_file) for _ in range(n)]`, parameterised by
the recursive decoder. -/
def manyWith (req : List Nat → Except PyErr (Value × List Nat)) :
    Nat → List Nat → Except PyErr (List Value × List Nat)
  | 0, bs => .ok ([], bs)
  | n + 1, bs =>
    match req bs with
    | .error e => .error e
    | .ok (v, rest) =>
      match manyWith req n rest with
      | .error e => .error e
      | .ok (vs, rest2) => .ok (v :: vs, rest2)

/-- `ProtocolHandler.handle_array`: `range(num_elements)` iterates
`num_elements.toNat` times (zero times for a negative count). -/
def handle_array (req : List Nat → Except PyErr (Value × List Nat)) (bs : List Nat) :
    Except PyErr (Value × List Nat) :=
  let (line, rest) := readline bs
  match parseIntBytes (rstripCrLf line) with
  | none => .error .valueError
  | some num_elements =>
    match manyWith req num_elements.toNat rest with
    | .error e => .error e
    | .ok (vs, rest2) => .ok (.list vs, rest2)

/-- `ProtocolHandler.handle_dict`: decode `num_items * 2` frames, pair
`elements[::2]` with `elements[1::2]`, and build a `dict` (raising
`TypeError` on an unhashable key). -/
def handle_dict (req : List Nat → Except PyErr (Value × List Nat)) (bs : List Nat) :
    Except PyErr (Value × List Nat) :=
  let (line, rest) := readline bs
  match parseIntBytes (rstripCrLf line) with
  | none => .error .valueError
  | some num_items =>
    match manyWith req (num_items.toNat * 2) rest with
    | .error e => .error e
    | .ok (elements, rest2) =>
      match dictFromPairs ((sliceEvens elements).zip (sliceOdds elements)) with
      | .error e => .error e
      | .ok d => .ok (.dict d, rest2)

/-- `ProtocolHandler.handle_request`, fuelled: read one tag byte (empty read
is `Disconnect`), UTF-8 decode it strictly, dispatch on the tag; a byte that
is no tag raises `CommandError` with message `Bad Request` (the `KeyError`
handler of the source). -/
def handleRequestF : Nat → List Nat → Except PyErr (Value × List Nat)
  | 0, _ => .error .fuelOut
  | fuel + 1, bs =>
    match bs with
    | [] => .error .disconnect
    | b :: rest =>
      match utf8DecodeOne [b] with
      | none => .error .unicodeError
      | some (c, _) =>
        if c = 43 then handle_simple_string rest
        else if c = 45 then handle_error rest
        else if c = 58 then handle_integer rest
        else if c = 36 then handle_string rest
        else if c = 42 then handle_array (handleRequestF fuel) rest
        else if c = 37 then handle_dict (handleRequestF fuel) rest
        else .error (.commandError (asc "Bad Request"))

/-- `ProtocolHandler.handle_request` on a byte stream: fuel `length + 1`
always suffices, since every frame consumes at least its tag byte. -/
def handle_request (bs : List Nat) : Except PyErr (Value × List Nat) :=
  handleRequestF (bs.length + 1) bs

mutual
/-- `ProtocolHandler.write` (and the loops inside its `list`/`dict` arms).
A value outside the closed set (`float`) raises `CommandError`, the message
abbreviating Python's `Unrecognized type: %s` rendering of the class. -/
def write : Value → Except PyErr (List Nat)
  | .str s => .ok (36 :: natToDec (utf8Encode s).length ++ crlf ++ utf8Encode s ++ crlf)
  | .bytes b => .ok (36 :: natToDec b.length ++ crlf ++ b ++ crlf)
  | .int n => .ok (58 :: intToDec n ++ crlf)
  | .err m => .ok (45 :: utf8Encode m ++ crlf)
  | .list items =>
    match writeAll items with
    | .error e => .error e
    | .ok out => .ok (42 :: natToDec items.length ++ crlf ++ out)
  | .dict pairs =>
    match writePairs pairs with
    | .error e => .error e
    | .ok out => .ok (37 :: natToDec pairs.length ++ crlf ++ out)
  | .null => .ok (36 :: 45 :: 49 :: crlf)
  | .float _ => .error (.commandError (asc "Unrecognized type: float"))
def writeAll : List Value → Except PyErr (List Nat)
  | [] => .ok []
  | v :: rest =>
    match write v with
    | .error e => .error e
    | .ok o =>
      match writeAll rest with
      | .error e => .error e
      | .ok os => .ok (o ++ os)
def writePairs : List (Value × Value) → Except PyErr (List Nat)
  | [] => .ok []
  | (k, v) :: rest =>
    match write k with
    | .error e => .error e
    | .ok ok_ =>
      match write v with
      | .error e => .error e
      | .ok ov =>
        match writePairs rest with
        | .error e => .error e
        | .ok os => .ok (ok_ ++ ov ++ os)
end

/-- `ProtocolHandler.write_response`: the buffer is built in full before
anything is sent, so an encoder exception sends nothing. -/
def write_response (data : Value) : Except PyErr (List Nat) := write data

/-- `str.split()`: split on runs of whitespace, no empty tokens. -/
def splitAux : List Nat → List Nat → List (List Nat)
  | [], acc => if acc.isEmpty then [] else [acc.reverse]
  | c :: rest, acc =>
    if pyWs c then
      if acc.isEmpty then splitAux rest [] else acc.reverse :: splitAux rest []
    else splitAux rest (c :: acc)

/-- `str.split()` on a string of code points. -/
def pySplit (s : List Nat) : List (List Nat) := splitAux s []

/-- `str.upper()` restricted to ASCII (command names are ASCII). -/
def upperAscii (s : List Nat) : List Nat :=
  s.map (fun c => if 97 ≤ c && c ≤ 122 then c - 32 else c)

namespace Server

/-- `Server.get`: `self._kv.get(key)`; an unhashable key raises `TypeError`,
a missing key yields `None`. -/
def get (kv : Store) (key : Value) : Store × Except PyErr Value :=
  if unhashable key then (kv, .error .typeError)
  else
    (kv, .ok (match storeLookup kv key with
              | some v => v
              | none => .null))

/-- `Server.set`: store the value and return `1`. -/
def set (kv : Store) (key value : Value) : Store × Except PyErr Value :=
  if unhashable key then (kv, .error .typeError)
  else (dictInsert kv key value, .ok (.int 1))

/-- `Server.delete`. -/
def delete (kv : Store) (key : Value) : Store × Except PyErr Value :=
  if unhashable key then (kv, .error .typeError)
  else if (storeLookup kv key).isSome then (storeErase kv key, .ok (.int 1))
  else (kv, .ok (.int 0))

/-- `Server.flush`: report the old size and clear. -/
def flush (kv : Store) : Store × Except PyErr Value :=
  ([], .ok (.int kv.length))

/-- The list comprehension of `Server.mget`, left to right. -/
def mgetLoop (kv : Store) : List Value → Except PyErr (List Value)
  | [] => .ok []
  | k :: rest =>
    if unhashable k then .error .typeError
    else
      match mgetLoop kv rest with
      | .error e => .error e
      | .ok vs =>
        .ok ((match storeLookup kv k with
              | some v => v
              | none => Value.null) :: vs)

/-- `Server.mget`. -/
def mget (kv : Store) (keys : List Value) : Store × Except PyErr Value :=
  match mgetLoop kv keys with
  | .error e => (kv, .error e)
  | .ok vs => (kv, .ok (.list vs))

/-- The assignment loop of `Server.mset`: pairs are written left to right, so
a `TypeError` in the middle leaves the earlier writes in place. -/
def msetWrite (kv : Store) : List (Value × Value) → Store × Option PyErr
  | [] => (kv, none)
  | (k, v) :: rest =>
    if unhashable k then (kv, some .typeError)
    else msetWrite (dictInsert kv k v) rest

/-- `Server.mset`: an odd number of arguments raises `CommandError` before
anything is written; otherwise `zip(items[::2], items[1::2])` is written and
the number of pairs returned. -/
def mset (kv : Store) (items : List Value) : Store × Except PyErr Value :=
  if items.length % 2 ≠ 0 then
    (kv, .error (.commandError (asc "MSET requires an even number of arguments")))
  else
    let pairs := (sliceEvens items).zip (sliceOdds items)
    match msetWrite kv pairs with
    | (kv2, none) => (kv2, .ok (.int pairs.length))
    | (kv2, some e) => (kv2, .error e)

/-- Request normalisation of `Server.get_response`: a list passes through,
a `str` (or decodable `bytes`) is split on whitespace; anything else — or an
undecodable `bytes` — becomes `CommandError` via the bare `except`. -/
def normalize (data : Value) : Except PyErr (List Value) :=
  match data with
  | .list l => .ok l
  | .str s => .ok ((pySplit s).map .str)
  | .bytes b =>
    match utf8Decode b with
    | some s => .ok ((pySplit s).map .str)
    | none => .error (.commandError (asc "Request must be a list or simple string"))
  | _ => .error (.commandError (asc "Request must be a list or simple string"))

/-- `cmd.upper()` after the bytes check: a non-string command token has no
`upper` attribute and raises `AttributeError` (uncaught in the source). -/
def cmdName : Value → Except PyErr (List Nat)
  | .str s => .ok (upperAscii s)
  | .bytes b =>
    match utf8Decode b with
    | some s => .ok (upperAscii s)
    | none => .error .unicodeError
  | _ => .error .attributeError

/-- Argument conversion loop of `Server.get_response`: `bytes` arguments are
UTF-8 decoded, everything else is passed through. -/
def convArgs : List Value → Except PyErr (List Value)
  | [] => .ok []
  | .bytes b :: rest =>
    match utf8Decode b with
    | none => .error .unicodeError
    | some s =>
      match convArgs rest with
      | .error e => .error e
      | .ok vs => .ok (.str s :: vs)
  | v :: rest =>
    match convArgs rest with
    | .error e => .error e
    | .ok vs => .ok (v :: vs)

/-- The names in `Server.get_commands()`. -/
def commandNames : List (List Nat) :=
  [asc "GET", asc "SET", asc "DELETE", asc "FLUSH", asc "MGET", asc "MSET"]

/-- `self._commands[command](*args)`: dispatch on the (upper-cased) name;
a call whose argument count does not fit the handler's signature raises
`TypeError` (uncaught in the source). -/
def runCommand (kv : Store) (name : List Nat) (args : List Value) :
    Store × Except PyErr Value :=
  if name = asc "GET" then
    match args with
    | [k] => get kv k
    | _ => (kv, .error .typeError)
  else if name = asc "SET" then
    match args with
    | [k, v] => set kv k v
    | _ => (kv, .error .typeError)
  else if name = asc "DELETE" then
    match args with
    | [k] => delete kv k
    | _ => (kv, .error .typeError)
  else if name = asc "FLUSH" then
    match args with
    | [] => flush kv
    | _ => (kv, .error .typeError)
  else if name = asc "MGET" then mget kv args
  else if name = asc "MSET" then mset kv args
  else (kv, .error (.commandError (asc "Unrecognized command: " ++ name)))

/-- `Server.get_response`: normalise, reject an empty request, upper-case the
command name, check membership in the registry, convert the arguments and
invoke the handler. -/
def get_response (kv : Store) (data : Value) : Store × Except PyErr Value :=
  match normalize data with
  | .error e => (kv, .error e)
  | .ok toks =>
    match toks with
    | [] => (kv, .error (.commandError (asc "Missing command")))
    | c0 :: rawArgs =>
      match cmdName c0 with
      | .error e => (kv, .error e)
      | .ok name =>
        if commandNames.contains name then
          match convArgs rawArgs with
          | .error e => (kv, .error e)
          | .ok args => runCommand kv name args
        else (kv, .error (.commandError (asc "Unrecognized command: " ++ name)))

end Server

/-- How a session ends: a clean disconnect (`Disconnect` caught by the loop),
or an uncaught exception that kills this connection's greenlet only — the
hosting process keeps running. `fuelOut` is the fuel artefact. -/
inductive SessEnd where
  | disconnected
  | crashed (e : PyErr)
  | fuelOut
  deriving DecidableEq

/-- Result of one iteration of the `while True` loop of
`Server.connection_handler`. -/
inductive StepResult where
  | halt (kv : Store) (e : SessEnd)
  | next (out : List Nat) (rest : List Nat) (kv : Store)

/-- One iteration of `Server.connection_handler`: decode (only `Disconnect`
is caught there; any other decoder exception is uncaught and kills the
session), dispatch (only `CommandError` is caught and turned into an `Error`
response), then write the response (an encoder exception here is uncaught:
the write is outside both `try` blocks). -/
def sessionStep (bs : List Nat) (kv : Store) : StepResult :=
  match handle_request bs with
  | .error .disconnect => .halt kv .disconnected
  | .error e => .halt kv (.crashed e)
  | .ok (data, rest) =>
    match Server.get_response kv data with
    | (kv2, .ok v) =>
      match write_response v with
      | .ok out => .next out rest kv2
      | .error e => .halt kv2 (.crashed e)
    | (kv2, .error (.commandError m)) =>
      match write_response (.err m) with
      | .ok out => .next out rest kv2
      | .error e => .halt kv2 (.crashed e)
    | (kv2, .error e) => .halt kv2 (.crashed e)

/-- The `while True` loop of `Server.connection_handler`, fuelled; returns
the responses written, the final store and how the session ended. -/
def connection_handlerF : Nat → List Nat → Store → List (List Nat) × Store × SessEnd
  | 0, _, kv => ([], kv, .fuelOut)
  | fuel + 1, bs, kv =>
    match sessionStep bs kv with
    | .halt kv2 e => ([], kv2, e)
    | .next out rest kv2 =>
      let (outs, kv3, e) := connection_handlerF fuel rest kv2
      (out :: outs, kv3, e)

/-- `Server.connection_handler` on the whole byte stream of one connection:
fuel `length + 1` always suffices since every served request consumes at
least one byte. -/
def connection_handler (bs : List Nat) (kv : Store) : List (List Nat) × Store × SessEnd :=
  connection_handlerF (bs.length + 1) bs kv


theorem readline_append (xs ys : List Nat) (h : ∀ b ∈ xs, b ≠ 10) :
    readline (xs ++ 10 :: ys) = (xs ++ [10], ys) := by
  induction xs with
  | nil => simp [readline]
  | cons a as ih =>
    have ha : a ≠ 10 := h a (List.mem_cons_self a as)
    have ih2 := ih (fun b hb => h b (List.mem_cons_of_mem a hb))
    simp only [List.cons_append, readline, if_neg ha]
    rw [show as.append (10 :: ys) = as ++ 10 :: ys from rfl, ih2]

theorem rstripCrLf_append_crlf (xs : List Nat) :
    rstripCrLf (xs ++ [13, 10]) = rstripCrLf xs := by
  simp [rstripCrLf, List.dropWhile]


theorem rstripCrLf_no_crlf (xs : List Nat) (h : ∀ b ∈ xs, b ≠ 13 ∧ b ≠ 10) :
    rstripCrLf xs = xs := by
  unfold rstripCrLf
  have hself : xs.reverse.dropWhile (fun b => b == 13 || b == 10) = xs.reverse := by
    apply List.dropWhile_eq_self_iff.mpr
    intro hne
    have hlen : 0 < xs.length := by simpa using hne
    have hmem : xs[xs.length - 1] ∈ xs := List.getElem_mem (by omega)
    rcases h _ hmem with ⟨h13, h10⟩
    simp [List.getElem_reverse, h13, h10]
  rw [hself, List.reverse_reverse]

theorem natToDecF_digits (fuel n : Nat) :
    ∀ b ∈ natToDecF fuel n, 48 ≤ b ∧ b ≤ 57 := by
  induction fuel generalizing n with
  | zero =>
    intro b hb
    simp only [natToDecF, List.mem_singleton] at hb
    subst hb
    have := Nat.mod_lt n (show 0 < 10 by decide)
    omega
  | succ fuel ih =>
    intro b hb
    simp only [natToDecF] at hb
    split at hb
    · simp only [List.mem_singleton] at hb
      subst hb
      omega
    · rcases List.mem_append.mp hb with h1 | h2
      · exact ih _ b h1
      · simp only [List.mem_singleton] at h2
        subst h2
        have := Nat.mod_lt n (show 0 < 10 by decide)
        omega

theorem natToDec_digits (n : Nat) : ∀ b ∈ natToDec n, 48 ≤ b ∧ b ≤ 57 :=
  natToDecF_digits n n

theorem natToDecF_ne_nil (fuel n : Nat) : natToDecF fuel n ≠ [] := by
  cases fuel with
  | zero => simp [natToDecF]
  | succ fuel =>
    simp only [natToDecF]
    split
    · simp
    · simp

theorem natToDecF_foldl (fuel : Nat) :
    ∀ n a, n < 10 ^ (fuel + 1) →
      (natToDecF fuel n).foldl (fun a d => a * 10 + (d - 48)) a =
        a * 10 ^ (natToDecF fuel n).length + n := by
  induction fuel with
  | zero =>
    intro n a hn
    have hmod : n % 10 = n := Nat.mod_eq_of_lt (by omega)
    simp only [natToDecF, hmod, List.foldl_cons, List.foldl_nil, List.length_cons,
      List.length_nil, Nat.zero_add, pow_one]
    omega
  | succ fuel ih =>
    intro n a hn
    by_cases h10 : n < 10
    · simp only [natToDecF, if_pos h10, List.foldl_cons, List.foldl_nil,
        List.length_cons, List.length_nil, Nat.zero_add, pow_one]
      omega
    · rw [pow_succ] at hn
      have hdiv : n / 10 < 10 ^ (fuel + 1) := by omega
      simp only [natToDecF, if_neg h10, List.foldl_append, List.foldl_cons,
        List.foldl_nil, List.length_append, List.length_cons, List.length_nil,
        Nat.zero_add]
      rw [ih (n / 10) a hdiv]
      have h48 : 48 + n % 10 - 48 = n % 10 := by omega
      rw [h48, pow_succ]
      have hmul : a * (10 ^ (natToDecF fuel (n / 10)).length * 10) =
          a * 10 ^ (natToDecF fuel (n / 10)).length * 10 := by ring
      rw [hmul]
      generalize a * 10 ^ (natToDecF fuel (n / 10)).length = c
      omega

theorem parseDigits_natToDec (n : Nat) : parseDigits (natToDec n) = some n := by
  unfold parseDigits
  have hne : ¬ (natToDec n).isEmpty := by
    simp only [List.isEmpty_iff]
    exact natToDecF_ne_nil n n
  rw [if_neg hne]
  have hall : (natToDec n).all isDigit = true := by
    rw [List.all_eq_true]
    intro b hb
    have := natToDec_digits n b hb
    simp only [isDigit, Bool.and_eq_true, decide_eq_true_eq]
    omega
  rw [if_pos hall]
  have hlt : n < 10 ^ (n + 1) := by
    calc n < 10 ^ n := Nat.lt_pow_self (by decide) n
    _ ≤ 10 ^ (n + 1) := Nat.pow_le_pow_right (by decide) (by omega)
  have hfold := natToDecF_foldl n n 0 hlt
  unfold natToDec
  rw [hfold]
  simp

theorem dropWhile_all_false (p : Nat → Bool) (xs : List Nat)
    (h : ∀ b ∈ xs, p b = false) : xs.dropWhile p = xs := by
  cases xs with
  | nil => rfl
  | cons a as => simp [List.dropWhile, h a (by simp)]

theorem pyTrim_all_not_ws (xs : List Nat) (h : ∀ b ∈ xs, pyWs b = false) :
    ((xs.dropWhile pyWs).reverse.dropWhile pyWs).reverse = xs := by
  rw [dropWhile_all_false _ _ h,
    dropWhile_all_false _ _ (fun b hb => h b (List.mem_reverse.mp hb)),
    List.reverse_reverse]

theorem natToDec_not_ws (n : Nat) : ∀ b ∈ natToDec n, pyWs b = false := by
  intro b hb
  have := natToDec_digits n b hb
  simp only [pyWs, Bool.or_eq_false_iff, decide_eq_false_iff_not]
  omega

theorem parseIntBytes_natToDec (n : Nat) : parseIntBytes (natToDec n) = some (n : Int) := by
  unfold parseIntBytes
  rw [pyTrim_all_not_ws _ (natToDec_not_ws n)]
  obtain ⟨d, ds, hd⟩ : ∃ d ds, natToDec n = d :: ds := by
    cases hx : natToDec n with
    | nil => exact absurd hx (natToDecF_ne_nil n n)
    | cons a as => exact ⟨a, as, rfl⟩
  have hdig := natToDec_digits n
  rw [hd] at hdig ⊢
  have h43 : d ≠ 43 := by have := hdig d (by simp); omega
  have h45 : d ≠ 45 := by have := hdig d (by simp); omega
  split
  · rename_i heq
    rw [List.cons.injEq] at heq
    exact absurd heq.1 h43
  · rename_i heq
    rw [List.cons.injEq] at heq
    exact absurd heq.1 h45
  · rw [← hd, parseDigits_natToDec]
    rfl

theorem parseIntBytes_intToDec (i : Int) : parseIntBytes (intToDec i) = some i := by
  by_cases hneg : i < 0
  · unfold intToDec
    rw [if_pos hneg]
    unfold parseIntBytes
    have hnws : ∀ b ∈ 45 :: natToDec (-i).toNat, pyWs b = false := by
      intro b hb
      rcases List.mem_cons.mp hb with h | h
      · subst h; rfl
      · exact natToDec_not_ws _ b h
    rw [pyTrim_all_not_ws _ hnws]
    split
    · rename_i heq
      rw [List.cons.injEq] at heq
      omega
    · rename_i heq
      rw [List.cons.injEq] at heq
      rw [← heq.2, parseDigits_natToDec]
      simp only [Option.bind_some, Option.map_some, Option.pure_def, Option.bind_eq_bind,
        Option.some.injEq]
      have h0 : ((-i).toNat : Int) = -i := Int.toNat_of_nonneg (by omega)
      simp [h0]
    · rename_i hne43 hne45
      exact absurd rfl (hne45 (natToDec (-i).toNat))
  · unfold intToDec
    rw [if_neg hneg]
    rw [parseIntBytes_natToDec]
    congr 1
    omega

theorem utf8EncodeChar_ne_nil (c : Nat) : utf8EncodeChar c ≠ [] := by
  unfold utf8EncodeChar
  split_ifs <;> simp

theorem utf8EncodeChar_length_pos (c : Nat) : 1 ≤ (utf8EncodeChar c).length := by
  unfold utf8EncodeChar
  split_ifs <;> simp

theorem utf8Encode_length_ge (s : List Nat) : s.length ≤ (utf8Encode s).length := by
  induction s with
  | nil => simp [utf8Encode]
  | cons c cs ih =>
    have hc := utf8EncodeChar_length_pos c
    simp only [utf8Encode, List.flatMap_cons, List.length_append, List.length_cons]
    simp only [utf8Encode] at ih
    omega

theorem mem_utf8EncodeChar_small (c b : Nat) (hb : b ∈ utf8EncodeChar c)
    (hsmall : b < 0x80) : b = c := by
  unfold utf8EncodeChar at hb
  split_ifs at hb <;> simp_all <;> omega

theorem utf8Encode_no_small_byte (s : List Nat) (x : Nat) (hx : x < 0x80)
    (h : x ∉ s) : x ∉ utf8Encode s := by
  intro hmem
  rcases List.mem_flatMap.mp hmem with ⟨a, ha, hxa⟩
  exact h (mem_utf8EncodeChar_small a x hxa hx ▸ ha)

theorem utf8DecodeOne_encodeChar (c : Nat) (hc : validCp c = true) (rest : List Nat) :
    utf8DecodeOne (utf8EncodeChar c ++ rest) = some (c, rest) := by
  have hc2 : c < 0x110000 ∧ (c < 0xD800 ∨ 0xE000 ≤ c) := by
    simpa [validCp, Decidable.not_and_iff_or_not] using hc
  unfold utf8EncodeChar
  by_cases h1 : c < 0x80
  · rw [if_pos h1]
    simp [utf8DecodeOne, h1]
  · rw [if_neg h1]
    by_cases h2 : c < 0x800
    · rw [if_pos h2]
      have e1 : ¬ (0xC0 + c / 64 < 0x80) := by omega
      have e2 : ¬ (0xC0 + c / 64 < 0xC2) := by omega
      have e3 : 0xC0 + c / 64 < 0xE0 := by omega
      have e4 : isCont (0x80 + c % 64) = true := by
        simp only [isCont, Bool.and_eq_true, decide_eq_true_eq]
        omega
      simp only [List.cons_append, List.nil_append, utf8DecodeOne, if_neg e1,
        if_neg e2, if_pos e3, e4, if_true]
      have hval : (0xC0 + c / 64 - 0xC0) * 64 + (0x80 + c % 64 - 0x80) = c := by omega
      rw [hval]
    · rw [if_neg h2]
      by_cases h3 : c < 0x10000
      · rw [if_pos h3]
        have e1 : ¬ (0xE0 + c / 4096 < 0x80) := by omega
        have e2 : ¬ (0xE0 + c / 4096 < 0xC2) := by omega
        have e3 : ¬ (0xE0 + c / 4096 < 0xE0) := by omega
        have e4 : 0xE0 + c / 4096 < 0xF0 := by omega
        have e5 : isCont (0x80 + c / 64 % 64) = true := by
          simp only [isCont, Bool.and_eq_true, decide_eq_true_eq]
          omega
        have e6 : isCont (0x80 + c % 64) = true := by
          simp only [isCont, Bool.and_eq_true, decide_eq_true_eq]
          omega
        simp only [List.cons_append, List.nil_append, utf8DecodeOne, if_neg e1,
          if_neg e2, if_neg e3, if_pos e4, e5, e6, Bool.and_self, if_true]
        have hval : (0xE0 + c / 4096 - 0xE0) * 4096 + (0x80 + c / 64 % 64 - 0x80) * 64 +
            (0x80 + c % 64 - 0x80) = c := by omega
        rw [hval]
        have e7 : ¬ ((c < 0x800 || (0xD800 ≤ c && c < 0xE000)) = true) := by
          simp only [Bool.or_eq_true, Bool.and_eq_true, decide_eq_true_eq]
          omega
        rw [if_neg e7]
      · rw [if_neg h3]
        have e1 : ¬ (0xF0 + c / 262144 < 0x80) := by omega
        have e2 : ¬ (0xF0 + c / 262144 < 0xC2) := by omega
        have e3 : ¬ (0xF0 + c / 262144 < 0xE0) := by omega
        have e4 : ¬ (0xF0 + c / 262144 < 0xF0) := by omega
        have e5 : 0xF0 + c / 262144 < 0xF5 := by omega
        have e6 : isCont (0x80 + c / 4096 % 64) = true := by
          simp only [isCont, Bool.and_eq_true, decide_eq_true_eq]
          omega
        have e7 : isCont (0x80 + c / 64 % 64) = true := by
          simp only [isCont, Bool.and_eq_true, decide_eq_true_eq]
          omega
        have e8 : isCont (0x80 + c % 64) = true := by
          simp only [isCont, Bool.and_eq_true, decide_eq_true_eq]
          omega
        simp only [List.cons_append, List.nil_append, utf8DecodeOne, if_neg e1,
          if_neg e2, if_neg e3, if_neg e4, if_pos e5, e6, e7, e8, Bool.and_self, if_true]
        have hval : (0xF0 + c / 262144 - 0xF0) * 262144 + (0x80 + c / 4096 % 64 - 0x80) * 4096 +
            (0x80 + c / 64 % 64 - 0x80) * 64 + (0x80 + c % 64 - 0x80) = c := by omega
        rw [hval]
        have e9 : ¬ ((c < 0x10000 || 0x110000 ≤ c) = true) := by
          simp only [Bool.or_eq_true, decide_eq_true_eq]
          omega
        rw [if_neg e9]

theorem utf8DecodeF_encode (s : List Nat) (h : s.all validCp = true) :
    ∀ fuel, s.length ≤ fuel → utf8DecodeF fuel (utf8Encode s) = some s := by
  induction s with
  | nil =>
    intro fuel _
    have : utf8Encode [] = [] := rfl
    rw [this]
    cases fuel <;> rfl
  | cons c cs ih =>
    intro fuel hf
    cases fuel with
    | zero => simp at hf
    | succ fuel =>
      rw [List.all_cons, Bool.and_eq_true] at h
      have henc : utf8Encode (c :: cs) = utf8EncodeChar c ++ utf8Encode cs := by
        simp [utf8Encode]
      rw [henc]
      obtain ⟨b, bs, hb⟩ : ∃ b bs, utf8EncodeChar c ++ utf8Encode cs = b :: bs := by
        cases hx : utf8EncodeChar c with
        | nil => exact absurd hx (utf8EncodeChar_ne_nil c)
        | cons a as => exact ⟨a, as ++ utf8Encode cs, by simp [hx]⟩
      rw [hb]
      have hdec := utf8DecodeOne_encodeChar c h.1 (utf8Encode cs)
      rw [hb] at hdec
      simp only [utf8DecodeF, hdec]
      rw [ih h.2 fuel (by simpa using hf)]
      rfl

theorem utf8Decode_encode (s : List Nat) (h : s.all validCp = true) :
    utf8Decode (utf8Encode s) = some s :=
  utf8DecodeF_encode s h (utf8Encode s).length (utf8Encode_length_ge s)

theorem readline_crlf (ds tail : List Nat) (h10 : ∀ b ∈ ds, b ≠ 10) :
    readline (ds ++ crlf ++ tail) = (ds ++ crlf, tail) := by
  have hsh : ds ++ crlf ++ tail = (ds ++ [13]) ++ 10 :: tail := by
    simp [crlf]
  rw [hsh, readline_append _ _ ?h]
  case h =>
    intro b hb
    rcases List.mem_append.mp hb with h | h
    · exact h10 b h
    · simp only [List.mem_singleton] at h
      omega
  simp [crlf]

theorem rstrip_crlf_clean (ds : List Nat) (h : ∀ b ∈ ds, b ≠ 13 ∧ b ≠ 10) :
    rstripCrLf (ds ++ crlf) = ds := by
  have hsh : ds ++ crlf = ds ++ [13, 10] := rfl
  rw [hsh, rstripCrLf_append_crlf, rstripCrLf_no_crlf ds h]

theorem natToDec_no_crlf (n : Nat) : ∀ b ∈ natToDec n, b ≠ 13 ∧ b ≠ 10 := by
  intro b hb
  have := natToDec_digits n b hb
  omega

theorem intToDec_no_crlf (i : Int) : ∀ b ∈ intToDec i, b ≠ 13 ∧ b ≠ 10 := by
  intro b hb
  unfold intToDec at hb
  split at hb
  · rcases List.mem_cons.mp hb with h | h
    · omega
    · have := natToDec_digits _ b h
      omega
  · have := natToDec_digits _ b hb
    omega

theorem readline_natLine (n : Nat) (tail : List Nat) :
    readline (natToDec n ++ crlf ++ tail) = (natToDec n ++ crlf, tail) :=
  readline_crlf _ _ (fun b hb => (natToDec_no_crlf n b hb).2)

theorem rstrip_natLine (n : Nat) : rstripCrLf (natToDec n ++ crlf) = natToDec n :=
  rstrip_crlf_clean _ (natToDec_no_crlf n)

theorem readline_intLine (i : Int) (tail : List Nat) :
    readline (intToDec i ++ crlf ++ tail) = (intToDec i ++ crlf, tail) :=
  readline_crlf _ _ (fun b hb => (intToDec_no_crlf i b hb).2)

theorem rstrip_intLine (i : Int) : rstripCrLf (intToDec i ++ crlf) = intToDec i :=
  rstrip_crlf_clean _ (intToDec_no_crlf i)

theorem handle_request_cons (b : Nat) (rest : List Nat) :
    handle_request (b :: rest) = handleRequestF (rest.length + 1 + 1) (b :: rest) := rfl

theorem utf8DecodeOne_dollar : utf8DecodeOne [36] = some (36, []) := rfl

theorem utf8DecodeOne_star : utf8DecodeOne [42] = some (42, []) := rfl

theorem utf8DecodeOne_percent : utf8DecodeOne [37] = some (37, []) := rfl

theorem handle_string_exact (L : Nat) (payload rest : List Nat) (hlen : payload.length = L) :
    handle_string (natToDec L ++ crlf ++ (payload ++ (crlf ++ rest))) =
      (match utf8Decode payload with
       | some s => .ok (.str s, rest)
       | none => .error .unicodeError) := by
  have hpc : (payload ++ crlf).length = L + 2 := by simp [crlf, hlen]
  simp only [handle_string, readline_natLine, rstrip_natLine, parseIntBytes_natToDec]
  rw [if_neg (show ¬ (L : Int) = -1 by omega)]
  simp only [pyRead]
  rw [if_neg (show ¬ (L : Int) + 2 < 0 by omega)]
  have ht : ((L : Int) + 2).toNat = L + 2 := by omega
  rw [ht]
  have hassoc : payload ++ (crlf ++ rest) = (payload ++ crlf) ++ rest := by
    simp [List.append_assoc]
  rw [hassoc, List.take_left' hpc, List.drop_left' hpc]
  simp only [pySliceToMinus2, hpc, Nat.add_sub_cancel]
  rw [List.take_left' hlen]

/-- Claim C4, counterexample: the decoder does NOT return the payload bytes
as-is — it UTF-8 decodes them strictly, so the valid frame `$1\r\n` followed
by the byte `0xFF` and the terminator raises `UnicodeDecodeError` instead of
yielding the one-byte payload. -/
theorem claim_C4_counterexample :
    handle_request ([36, 49, 13, 10] ++ [255] ++ [13, 10]) = .error .unicodeError := rfl

/-- Claim C4 (amended): for a BulkString frame with non-negative declared
length `L`, the decoder reads exactly `L` payload bytes plus the two-byte
terminator, discards the terminator, and then STRICTLY UTF-8 DECODES the
payload at the codec layer: a valid encoding yields the decoded text, an
invalid one raises `UnicodeDecodeError`. -/
theorem claim_C4_amended (L : Nat) (payload rest : List Nat) (hlen : payload.length = L) :
    handle_request (36 :: (natToDec L ++ crlf ++ (payload ++ (crlf ++ rest)))) =
      (match utf8Decode payload with
       | some s => .ok (.str s, rest)
       | none => .error .unicodeError) := by
  rw [handle_request_cons]
  simp only [handleRequestF, utf8DecodeOne_dollar]
  rw [if_pos trivial]
  exact handle_string_exact L payload rest hlen

/-- Claim C4, witness for the amended theorem at a concrete frame. -/
theorem claim_C4_witness :
    ([97, 98] : List Nat).length = 2 ∧
      handle_request (36 :: (natToDec 2 ++ crlf ++ ([97, 98] ++ (crlf ++ [88])))) =
        .ok (.str [97, 98], [88]) :=
  ⟨rfl, claim_C4_amended 2 [97, 98] [88] rfl⟩

/-- Claim C7 (confirmed): encoding `None` produces exactly the five bytes
`$-1\r\n`, and decoding `$-1\r\n` produces null, consuming nothing past the
length line (the arbitrary following bytes `rest` are untouched). -/
theorem claim_C7 :
    write .null = .ok (asc "$-1\r\n") ∧
    ∀ rest : List Nat, handle_request (asc "$-1\r\n" ++ rest) = .ok (.null, rest) := by
  constructor
  · rfl
  · intro rest
    have hs : asc "$-1\r\n" ++ rest = 36 :: 45 :: 49 :: 13 :: 10 :: rest := rfl
    rw [hs, handle_request_cons]
    simp only [handleRequestF, utf8DecodeOne_dollar]
    rw [if_pos trivial]
    simp only [handle_string, readline]
    have hr : rstripCrLf [45, 49, 13, 10] = [45, 49] := rfl
    have hp : parseIntBytes [45, 49] = some (-1) := rfl
    simp [hr, hp]

/-- Claim C3, counterexample: a BulkString with declared length `-2` (which
is negative and not `-1`) does NOT fail — it silently decodes to the empty
string. -/
theorem claim_C3_counterexample :
    handle_request (asc "$-2\r\n") = .ok (.str [], []) := rfl

/-- Claim C3 (amended): negative declared lengths and counts are not
rejected: BulkString length `-2` silently decodes to the empty string,
length `-5` (≤ -3) consumes the remainder of the stream and decodes what it
finds, and any negative Array or Map count silently decodes to an empty
container. -/
theorem claim_C3_amended :
    (∀ rest : List Nat, handle_request (asc "$-2\r\n" ++ rest) = .ok (.str [], rest)) ∧
    (∀ n : Int, n < 0 → ∀ rest : List Nat,
      handle_request (42 :: (intToDec n ++ crlf ++ rest)) = .ok (.list [], rest)) ∧
    (∀ n : Int, n < 0 → ∀ rest : List Nat,
      handle_request (37 :: (intToDec n ++ crlf ++ rest)) = .ok (.dict [], rest)) ∧
    handle_request (asc "$-5\r\nab\r\n") = .ok (.str (asc "ab"), []) := by
  refine ⟨?p1, ?p2, ?p3, rfl⟩
  case p1 =>
    intro rest
    have hs : asc "$-2\r\n" ++ rest = 36 :: 45 :: 50 :: 13 :: 10 :: rest := rfl
    rw [hs, handle_request_cons]
    simp only [handleRequestF, utf8DecodeOne_dollar]
    rw [if_pos trivial]
    simp only [handle_string, readline]
    have hr : rstripCrLf [45, 50, 13, 10] = [45, 50] := rfl
    have hp : parseIntBytes [45, 50] = some (-2) := rfl
    simp [hr, hp, pyRead, pySliceToMinus2]
    rfl
  case p2 =>
    intro n hn rest
    rw [handle_request_cons]
    simp only [handleRequestF, utf8DecodeOne_star]
    rw [if_pos trivial]
    simp only [handle_array, readline_intLine, rstrip_intLine, parseIntBytes_intToDec]
    rw [show n.toNat = 0 from by omega]
    simp only [manyWith]
    rfl
  case p3 =>
    intro n hn rest
    rw [handle_request_cons]
    simp only [handleRequestF, utf8DecodeOne_percent]
    rw [if_pos trivial]
    simp only [handle_dict, readline_intLine, rstrip_intLine, parseIntBytes_intToDec]
    rw [show n.toNat = 0 from by omega]
    simp only [Nat.zero_mul, manyWith]
    rfl

/-- Claim C3, witness for the amended theorem at count `-3`. -/
theorem claim_C3_witness :
    (-3 : Int) < 0 ∧
      handle_request (42 :: (intToDec (-3) ++ crlf ++ [88])) = .ok (.list [], [88]) :=
  ⟨by decide, claim_C3_amended.2.1 (-3) (by decide) [88]⟩

/-- Claim C6, counterexample: end-of-stream before a NESTED element (stream
`*1\r\n`, ending exactly after the array header) is signalled as
`Disconnect`, not as a malformed-frame failure. -/
theorem claim_C6_counterexample :
    handle_request (asc "*1\r\n") = .error .disconnect := rfl

/-- Claim C6 (amended): `Disconnect` is signalled whenever end-of-stream is
reached at a point where a tag byte is to be read — at the top level AND
before a nested element of an Array (any positive declared count with
nothing following) — while the four non-recursive frame handlers never
signal `Disconnect` themselves. -/
theorem claim_C6_amended :
    handle_request [] = .error .disconnect ∧
    (∀ n : Int, 0 < n → handle_request (42 :: (intToDec n ++ crlf)) = .error .disconnect) ∧
    (∀ bs : List Nat, handle_simple_string bs ≠ .error .disconnect) ∧
    (∀ bs : List Nat, handle_error bs ≠ .error .disconnect) ∧
    (∀ bs : List Nat, handle_integer bs ≠ .error .disconnect) ∧
    (∀ bs : List Nat, handle_string bs ≠ .error .disconnect) := by
  refine ⟨rfl, ?p2, ?p3, ?p4, ?p5, ?p6⟩
  case p2 =>
    intro n hn
    rw [handle_request_cons]
    simp only [handleRequestF, utf8DecodeOne_star]
    rw [if_pos trivial]
    rw [show intToDec n ++ crlf = intToDec n ++ crlf ++ [] from by simp]
    simp only [handle_array, readline_intLine, rstrip_intLine, parseIntBytes_intToDec]
    obtain ⟨m, hm⟩ : ∃ m, n.toNat = m + 1 := ⟨n.toNat - 1, by omega⟩
    rw [hm]
    simp only [manyWith, handleRequestF]
    rfl
  case p3 =>
    intro bs
    unfold handle_simple_string
    split
    split <;> simp
  case p4 =>
    intro bs
    unfold handle_error
    split
    split <;> simp
  case p5 =>
    intro bs
    unfold handle_integer
    split
    split <;> simp
  case p6 =>
    intro bs
    unfold handle_string
    split
    split
    · simp
    · split
      · simp
      · split
        split <;> simp

/-- Claim C6, witness for the amended theorem at count `2`. -/
theorem claim_C6_witness :
    (0 : Int) < 2 ∧ handle_request (42 :: (intToDec 2 ++ crlf)) = .error .disconnect :=
  ⟨by decide, claim_C6_amended.2.1 2 (by decide)⟩

theorem handle_request_bad_tag (b : Nat) (rest : List Nat)
    (h43 : b ≠ 43) (h45 : b ≠ 45) (h58 : b ≠ 58) (h36 : b ≠ 36) (h42 : b ≠ 42)
    (h37 : b ≠ 37) :
    handle_request (b :: rest) =
      .error (if b < 128 then .commandError (asc "Bad Request") else .unicodeError) := by
  rw [handle_request_cons]
  by_cases hb : b < 128
  · rw [if_pos hb]
    have hdec : utf8DecodeOne [b] = some (b, []) := by
      simp only [utf8DecodeOne]
      rw [if_pos hb]
    simp only [handleRequestF, hdec]
    rw [if_neg h43, if_neg h45, if_neg h58, if_neg h36, if_neg h42, if_neg h37]
  · rw [if_neg hb]
    have hdec : utf8DecodeOne [b] = none := by
      simp only [utf8DecodeOne]
      rw [if_neg hb]
      split_ifs <;> rfl
    simp only [handleRequestF, hdec]

/-- Claim C1 (confirmed): if the first byte of a frame is outside the six
tags, the session ends with no response at all (which satisfies the claim's
"at most a best-effort diagnostic response"): the `CommandError` (printable
byte) or `UnicodeDecodeError` (byte ≥ 0x80) raised by `handle_request` is not
caught by the connection loop, so the loop stops serving that connection; the
exception kills only this connection's task, never the hosting process
(`SessEnd.crashed` is an ordinary value of the total session model). -/
theorem claim_C1 (b : Nat) (rest : List Nat) (kv : Store)
    (h43 : b ≠ 43) (h45 : b ≠ 45) (h58 : b ≠ 58) (h36 : b ≠ 36) (h42 : b ≠ 42)
    (h37 : b ≠ 37) :
    connection_handler (b :: rest) kv =
      ([], kv, .crashed (if b < 128 then .commandError (asc "Bad Request")
                         else .unicodeError)) := by
  have hconn : connection_handler (b :: rest) kv =
      connection_handlerF (rest.length + 1 + 1) (b :: rest) kv := rfl
  rw [hconn]
  by_cases hb : b < 128
  · have hreq : handle_request (b :: rest) = .error (.commandError (asc "Bad Request")) := by
      rw [handle_request_bad_tag b rest h43 h45 h58 h36 h42 h37, if_pos hb]
    simp only [connection_handlerF, sessionStep, hreq]
    rw [if_pos hb]
  · have hreq : handle_request (b :: rest) = .error .unicodeError := by
      rw [handle_request_bad_tag b rest h43 h45 h58 h36 h42 h37, if_neg hb]
    simp only [connection_handlerF, sessionStep, hreq]
    rw [if_neg hb]

/-- Claim C1, witness at the concrete tag byte `@` (64). -/
theorem claim_C1_witness :
    (64 : Nat) ≠ 43 ∧
      connection_handler (64 :: [1, 2, 3]) [] =
        ([], [], .crashed (if 64 < 128 then .commandError (asc "Bad Request")
                           else .unicodeError)) :=
  ⟨by decide,
   claim_C1 64 [1, 2, 3] [] (by decide) (by decide) (by decide) (by decide) (by decide)
     (by decide)⟩

/-- Claim C10 (confirmed): the well-formed Map frame `%1\r\n*0\r\n+x\r\n`,
whose key is an (empty) Array, raises an unhashable-key `TypeError` when the
decoded pairs are materialised into a `dict`; that error is neither
`Disconnect` nor `CommandError`, and the session dies with no response. -/
theorem claim_C10 :
    handle_request (asc "%1\r\n*0\r\n+x\r\n") = .error .typeError ∧
    PyErr.typeError ≠ PyErr.disconnect ∧
    (∀ m : List Nat, PyErr.typeError ≠ PyErr.commandError m) ∧
    connection_handler (asc "%1\r\n*0\r\n+x\r\n") [] = ([], [], .crashed .typeError) := by
  refine ⟨rfl, ?_, ?_, rfl⟩
  · intro h
    exact PyErr.noConfusion h
  · intro m h
    exact PyErr.noConfusion h

/-- Claim C9, counterexample: a handler result outside the encoder's closed
set (a stored `float` returned by `GET`) is NOT surfaced to the client and
the session does NOT continue: the encoder's `CommandError` is raised outside
the loop's `try`, so the session dies without writing anything. -/
theorem claim_C9_counterexample :
    connection_handler (asc "+GET k\r\n") [(.str (asc "k"), .float 0)] =
      ([], [(.str (asc "k"), .float 0)],
       .crashed (.commandError (asc "Unrecognized type: float"))) := rfl

/-- Claim C9 (amended): a handler result outside the encoder's closed value
set does raise a `CommandError` (`UnencodableValue` is indeed treated as a
`CommandError`), but because the response write happens outside the session
loop's `except CommandError`, the failure is NOT surfaced to the client as an
ErrorValue response: the session terminates with no output. -/
theorem claim_C9_amended :
    (∀ i : Nat, write (.float i) = .error (.commandError (asc "Unrecognized type: float"))) ∧
    (∀ (bs : List Nat) (kv kv2 : Store) (data v : Value) (rest : List Nat) (e : PyErr),
      handle_request bs = .ok (data, rest) →
      Server.get_response kv data = (kv2, .ok v) →
      write v = .error e →
      sessionStep bs kv = .halt kv2 (.crashed e)) := by
  constructor
  · intro i
    rfl
  · intro bs kv kv2 data v rest e h1 h2 h3
    simp only [sessionStep, h1, h2, write_response, h3]

/-- Claim C9, witness: the concrete session of `claim_C9_counterexample`
stepped once through the amended theorem. -/
theorem claim_C9_witness :
    write (.float 0) = .error (.commandError (asc "Unrecognized type: float")) ∧
      sessionStep (asc "+GET k\r\n") [(.str (asc "k"), .float 0)] =
        .halt [(.str (asc "k"), .float 0)]
          (.crashed (.commandError (asc "Unrecognized type: float"))) :=
  ⟨claim_C9_amended.1 0,
   claim_C9_amended.2 (asc "+GET k\r\n") [(.str (asc "k"), .float 0)]
     [(.str (asc "k"), .float 0)] (.str (asc "GET k")) (.float 0) []
     (.commandError (asc "Unrecognized type: float")) rfl rfl rfl⟩

/-- Claim C5, counterexample: a well-formed frame carrying `GET` with two
arguments (wrong argument shape) does NOT produce an ErrorValue response with
the session continuing — the arity mismatch raises an uncaught `TypeError`
and the session ends with no response. -/
theorem claim_C5_counterexample :
    connection_handler (asc "*3\r\n$3\r\nGET\r\n$1\r\nk\r\n$1\r\nv\r\n") [] =
      ([], [], .crashed .typeError) := rfl

/-- Claim C5 (amended): `CommandError`-class failures — the empty request,
an unknown command name, or a handler-raised `CommandError` — are converted
into an ErrorValue response and the session keeps serving (an unknown
command followed by a valid `GET` on the same connection is answered with an
ErrorValue and then the correct value); but a WRONG ARGUMENT SHAPE for a
fixed-arity handler (e.g. `GET` with two arguments) raises an uncaught
`TypeError` that ends the session with no response. -/
theorem claim_C5_amended :
    (∀ (kv : Store) (rest : List Nat),
      sessionStep (asc "+\r\n" ++ rest) kv = .next (asc "-Missing command\r\n") rest kv) ∧
    (∀ (kv : Store) (rest : List Nat),
      sessionStep (asc "+WHAT\r\n" ++ rest) kv =
        .next (asc "-Unrecognized command: WHAT\r\n") rest kv) ∧
    (connection_handler (asc "+WHAT\r\n+GET k\r\n") [(.str (asc "k"), .str (asc "v"))] =
      ([asc "-Unrecognized command: WHAT\r\n", asc "$1\r\nv\r\n"],
       [(.str (asc "k"), .str (asc "v"))], .disconnected)) ∧
    (∀ kv : Store,
      connection_handler (asc "*3\r\n$3\r\nGET\r\n$1\r\nk\r\n$1\r\nv\r\n") kv =
        ([], kv, .crashed .typeError)) :=
  ⟨fun _ _ => rfl, fun _ _ => rfl, rfl, fun _ => rfl⟩

theorem noBytes_convArgs (items : List Value) (h : ∀ x ∈ items, isBytesV x = false) :
    Server.convArgs items = .ok items := by
  induction items with
  | nil => rfl
  | cons v rest ih =>
    have hv := h v (by simp)
    have hrest := ih (fun x hx => h x (by simp [hx]))
    cases v <;> simp_all [Server.convArgs, isBytesV]

/-- Claim C8 (confirmed): an `MSET` with an odd number of arguments fails
with the `CommandError`-derived message before anything is written, leaving
the store exactly as it was; at the session level the client receives the
ErrorValue response and the connection stays open. -/
theorem claim_C8 :
    (∀ (kv : Store) (items : List Value), (∀ x ∈ items, isBytesV x = false) →
      items.length % 2 = 1 →
      Server.get_response kv (.list (.str (asc "MSET") :: items)) =
        (kv, .error (.commandError (asc "MSET requires an even number of arguments")))) ∧
    (∀ (kv : Store) (rest : List Nat),
      sessionStep (asc "+MSET a 1 b\r\n" ++ rest) kv =
        .next (asc "-MSET requires an even number of arguments\r\n") rest kv) := by
  constructor
  · intro kv items hnb hodd
    simp only [Server.get_response, Server.normalize]
    have hcmd : Server.cmdName (.str (asc "MSET")) = .ok (asc "MSET") := rfl
    simp only [hcmd]
    have hcont : Server.commandNames.contains (asc "MSET") = true := rfl
    rw [if_pos hcont]
    rw [noBytes_convArgs items hnb]
    simp only [Server.runCommand]
    rw [if_neg (by decide), if_neg (by decide), if_neg (by decide), if_neg (by decide),
      if_neg (by decide), if_pos trivial]
    simp only [Server.mset]
    rw [if_pos (show items.length % 2 ≠ 0 by omega)]
  · intro kv rest
    rfl

/-- Claim C8, witness at `MSET a 1 b` (three arguments) on the empty store. -/
theorem claim_C8_witness :
    (∀ x ∈ [Value.str [97], Value.str [49], Value.str [98]], isBytesV x = false) ∧
    ([Value.str [97], Value.str [49], Value.str [98]].length % 2 = 1) ∧
      Server.get_response [] (.list (.str (asc "MSET") ::
          [Value.str [97], Value.str [49], Value.str [98]])) =
        ([], .error (.commandError (asc "MSET requires an even number of arguments"))) :=
  ⟨by decide, by decide,
   claim_C8.1 [] [Value.str [97], Value.str [49], Value.str [98]] (by decide) (by decide)⟩

theorem handleRequestF_succ_plus (f : Nat) (t : List Nat) :
    handleRequestF (f + 1) (43 :: t) = handle_simple_string t := rfl

theorem handleRequestF_succ_minus (f : Nat) (t : List Nat) :
    handleRequestF (f + 1) (45 :: t) = handle_error t := rfl

theorem handleRequestF_succ_colon (f : Nat) (t : List Nat) :
    handleRequestF (f + 1) (58 :: t) = handle_integer t := rfl

theorem handleRequestF_succ_dollar (f : Nat) (t : List Nat) :
    handleRequestF (f + 1) (36 :: t) = handle_string t := rfl

theorem handleRequestF_succ_star (f : Nat) (t : List Nat) :
    handleRequestF (f + 1) (42 :: t) = handle_array (handleRequestF f) t := rfl

theorem handleRequestF_succ_percent (f : Nat) (t : List Nat) :
    handleRequestF (f + 1) (37 :: t) = handle_dict (handleRequestF f) t := rfl

theorem handle_string_exactR (L : Nat) (payload rest : List Nat) (hlen : payload.length = L) :
    handle_string (natToDec L ++ (crlf ++ (payload ++ (crlf ++ rest)))) =
      (match utf8Decode payload with
       | some s => .ok (.str s, rest)
       | none => .error .unicodeError) := by
  rw [← List.append_assoc]
  exact handle_string_exact L payload rest hlen

theorem readline_intLineR (i : Int) (tail : List Nat) :
    readline (intToDec i ++ (crlf ++ tail)) = (intToDec i ++ crlf, tail) := by
  rw [← List.append_assoc]
  exact readline_intLine i tail

theorem readline_natLineR (n : Nat) (tail : List Nat) :
    readline (natToDec n ++ (crlf ++ tail)) = (natToDec n ++ crlf, tail) := by
  rw [← List.append_assoc]
  exact readline_natLine n tail

theorem readline_crlfR (ds tail : List Nat) (h10 : ∀ b ∈ ds, b ≠ 10) :
    readline (ds ++ (crlf ++ tail)) = (ds ++ crlf, tail) := by
  rw [← List.append_assoc]
  exact readline_crlf ds tail h10

theorem handle_string_null (rest : List Nat) :
    handle_string (45 :: 49 :: 13 :: 10 :: rest) = .ok (.null, rest) := by
  simp only [handle_string, readline]
  have hr : rstripCrLf [45, 49, 13, 10] = [45, 49] := rfl
  have hp : parseIntBytes [45, 49] = some (-1) := rfl
  simp [hr, hp]

theorem vsize_pos (v : Value) : 1 ≤ vsize v := by
  cases v <;> simp [vsize]

theorem dictInsert_append (acc : Store) (k v : Value)
    (h : ∀ q ∈ acc, beqV q.1 k = false) :
    dictInsert acc k v = acc ++ [(k, v)] := by
  induction acc with
  | nil => rfl
  | cons q rest ih =>
    obtain ⟨k0, v0⟩ := q
    have h0 : beqV k0 k = false := h (k0, v0) (by simp)
    simp [dictInsert, h0, ih (fun q hq => h q (by simp [hq]))]

theorem dictBuild_clean (ps : List (Value × Value)) :
    ∀ acc : Store, (∀ p ∈ ps, unhashable p.1 = false) →
      (∀ p ∈ ps, ∀ q ∈ acc, beqV q.1 p.1 = false) →
      noDupKeysB ps = true →
      dictBuild acc ps = .ok (acc ++ ps) := by
  induction ps with
  | nil =>
    intro acc _ _ _
    simp [dictBuild]
  | cons p rest ih =>
    intro acc hh hd hnd
    obtain ⟨k, v⟩ := p
    simp only [dictBuild]
    rw [if_neg (show ¬ (unhashable k = true) by simp [hh (k, v) (by simp)])]
    rw [dictInsert_append acc k v (fun q hq => hd (k, v) (by simp) q hq)]
    simp only [noDupKeysB, Bool.and_eq_true, List.all_eq_true] at hnd
    rw [ih (acc ++ [(k, v)]) (fun p hp => hh p (by simp [hp])) ?hd2 hnd.2]
    · simp
    case hd2 =>
      intro p hp q hq
      rcases List.mem_append.mp hq with h1 | h2
      · exact hd p (by simp [hp]) q h1
      · simp only [List.mem_singleton] at h2
        subst h2
        have := hnd.1 p hp
        simpa using this

theorem dictFromPairs_clean (ps : List (Value × Value))
    (hh : ∀ p ∈ ps, unhashable p.1 = false) (hnd : noDupKeysB ps = true) :
    dictFromPairs ps = .ok ps := by
  have h := dictBuild_clean ps [] hh (by intro p _ q hq; simp at hq) hnd
  simpa [dictFromPairs] using h

theorem sliceEvens_interleave (ps : List (Value × Value)) :
    sliceEvens (interleavePairs ps) = ps.map Prod.fst := by
  induction ps with
  | nil => rfl
  | cons p rest ih =>
    obtain ⟨k, v⟩ := p
    simp [interleavePairs, sliceEvens, ih]

theorem sliceOdds_interleave (ps : List (Value × Value)) :
    sliceOdds (interleavePairs ps) = ps.map Prod.snd := by
  induction ps with
  | nil => rfl
  | cons p rest ih =>
    obtain ⟨k, v⟩ := p
    simp [interleavePairs, sliceOdds, ih]

theorem zip_fst_snd (ps : List (Value × Value)) :
    (ps.map Prod.fst).zip (ps.map Prod.snd) = ps := by
  induction ps with
  | nil => rfl
  | cons p rest ih => simp [ih]

theorem wf_write_ok : ∀ v : Value, wfB v = true → ∃ out, write v = .ok out := by
  intro v
  refine wfB.induct (fun v => wfB v = true → ∃ out, write v = .ok out)
    (fun ps => wfPairs ps = true → ∃ outs, writePairs ps = .ok outs)
    (fun items => wfList items = true → ∃ outs, writeAll items = .ok outs)
    ?hstr ?hint ?herr ?hbytes ?hnull ?hfloat ?hlist ?hdict ?hnil3 ?hcons3 ?hnil2 ?hcons2 v
  case hstr => exact fun s _ => ⟨_, rfl⟩
  case hint => exact fun n _ => ⟨_, rfl⟩
  case herr => exact fun m _ => ⟨_, rfl⟩
  case hbytes => exact fun b _ => ⟨_, rfl⟩
  case hnull => exact fun _ => ⟨_, rfl⟩
  case hfloat =>
    intro i h
    simp [wfB] at h
  case hlist =>
    intro items ih h
    simp only [wfB] at h
    obtain ⟨outs, houts⟩ := ih h
    exact ⟨42 :: natToDec items.length ++ crlf ++ outs, by simp [write, houts]⟩
  case hdict =>
    intro ps ih h
    simp only [wfB, Bool.and_eq_true] at h
    obtain ⟨outs, houts⟩ := ih h.2
    exact ⟨37 :: natToDec ps.length ++ crlf ++ outs, by simp [write, houts]⟩
  case hnil3 => exact fun _ => ⟨[], rfl⟩
  case hcons3 =>
    intro v rest ihv ihr h
    simp only [wfList, Bool.and_eq_true] at h
    obtain ⟨o, ho⟩ := ihv h.1
    obtain ⟨os, hos⟩ := ihr h.2
    exact ⟨o ++ os, by simp [writeAll, ho, hos]⟩
  case hnil2 => exact fun _ => ⟨[], rfl⟩
  case hcons2 =>
    intro k v rest ihk ihv ihr h
    simp only [wfPairs, Bool.and_eq_true] at h
    obtain ⟨⟨⟨hk1, _⟩, hv1⟩, hr1⟩ := h
    obtain ⟨ok_, hk⟩ := ihk hk1
    obtain ⟨ov, hv2⟩ := ihv hv1
    obtain ⟨os, hos⟩ := ihr hr1
    exact ⟨ok_ ++ ov ++ os, by simp [writePairs, hk, hv2, hos]⟩

theorem vsize_le_write : ∀ v : Value, ∀ out, write v = .ok out → vsize v ≤ out.length := by
  intro v
  refine wfB.induct (fun v => ∀ out, write v = .ok out → vsize v ≤ out.length)
    (fun ps => ∀ outs, writePairs ps = .ok outs → vsizePairs ps ≤ outs.length)
    (fun items => ∀ outs, writeAll items = .ok outs → vsizeList items ≤ outs.length)
    ?hstr ?hint ?herr ?hbytes ?hnull ?hfloat ?hlist ?hdict ?hnil3 ?hcons3 ?hnil2 ?hcons2 v
  case hstr =>
    intro s out h
    simp only [write, Except.ok.injEq] at h
    subst h
    simp [vsize]
  case hint =>
    intro n out h
    simp only [write, Except.ok.injEq] at h
    subst h
    simp [vsize]
  case herr =>
    intro m out h
    simp only [write, Except.ok.injEq] at h
    subst h
    simp [vsize]
  case hbytes =>
    intro b out h
    simp only [write, Except.ok.injEq] at h
    subst h
    simp [vsize]
  case hnull =>
    intro out h
    simp only [write, Except.ok.injEq] at h
    subst h
    simp [vsize, crlf]
  case hfloat =>
    intro i out h
    simp [write] at h
  case hlist =>
    intro items ih out h
    cases hwa : writeAll items with
    | error e => simp [write, hwa] at h
    | ok os =>
      simp only [write, hwa, Except.ok.injEq] at h
      subst h
      have hlen := ih os hwa
      simp only [vsize, List.length_cons, List.length_append, crlf, List.length_nil]
      omega
  case hdict =>
    intro ps ih out h
    cases hwp : writePairs ps with
    | error e => simp [write, hwp] at h
    | ok os =>
      simp only [write, hwp, Except.ok.injEq] at h
      subst h
      have hlen := ih os hwp
      simp only [vsize, List.length_cons, List.length_append, crlf, List.length_nil]
      omega
  case hnil3 =>
    intro outs h
    simp only [writeAll, Except.ok.injEq] at h
    subst h
    simp [vsizeList]
  case hcons3 =>
    intro v rest ihv ihr outs h
    cases hv : write v with
    | error e => simp [writeAll, hv] at h
    | ok o =>
      cases hr : writeAll rest with
      | error e => simp [writeAll, hv, hr] at h
      | ok os =>
        simp only [writeAll, hv, hr, Except.ok.injEq] at h
        subst h
        have h1 := ihv o hv
        have h2 := ihr os hr
        simp only [vsizeList, List.length_append]
        omega
  case hnil2 =>
    intro outs h
    simp only [writePairs, Except.ok.injEq] at h
    subst h
    simp [vsizePairs]
  case hcons2 =>
    intro k v rest ihk ihv ihr outs h
    cases hk : write k with
    | error e => simp [writePairs, hk] at h
    | ok ok_ =>
      cases hv2 : write v with
      | error e => simp [writePairs, hk, hv2] at h
      | ok ov =>
        cases hr : writePairs rest with
        | error e => simp [writePairs, hk, hv2, hr] at h
        | ok os =>
          simp only [writePairs, hk, hv2, hr, Except.ok.injEq] at h
          subst h
          have h1 := ihk ok_ hk
          have h2 := ihv ov hv2
          have h3 := ihr os hr
          simp only [vsizePairs, List.length_append]
          omega

theorem wfPairs_hashable (ps : List (Value × Value)) (h : wfPairs ps = true) :
    ∀ p ∈ ps, unhashable p.1 = false := by
  induction ps with
  | nil =>
    intro p hp
    simp at hp
  | cons q rest ih =>
    obtain ⟨k, v⟩ := q
    simp only [wfPairs, Bool.and_eq_true] at h
    intro p hp
    rcases List.mem_cons.mp hp with h1 | h2
    · subst h1
      have := h.1.1.2
      simpa using this
    · exact ih h.2 p h2

theorem decode_write : ∀ v : Value, ∀ fuel : Nat, wfB v = true → vsize v ≤ fuel →
    ∀ out rest, write v = .ok out → handleRequestF fuel (out ++ rest) = .ok (v, rest) := by
  intro v
  refine wfB.induct
    (fun v => ∀ fuel : Nat, wfB v = true → vsize v ≤ fuel →
      ∀ out rest, write v = .ok out → handleRequestF fuel (out ++ rest) = .ok (v, rest))
    (fun ps => ∀ fuel : Nat, wfPairs ps = true → vsizePairs ps ≤ fuel →
      ∀ outs rest, writePairs ps = .ok outs →
        manyWith (handleRequestF fuel) (ps.length * 2) (outs ++ rest) =
          .ok (interleavePairs ps, rest))
    (fun items => ∀ fuel : Nat, wfList items = true → vsizeList items ≤ fuel →
      ∀ outs rest, writeAll items = .ok outs →
        manyWith (handleRequestF fuel) items.length (outs ++ rest) = .ok (items, rest))
    ?hstr ?hint ?herr ?hbytes ?hnull ?hfloat ?hlist ?hdict ?hnil3 ?hcons3 ?hnil2 ?hcons2 v
  case hstr =>
    intro s fuel hwf hsz out rest hw
    simp only [write, Except.ok.injEq] at hw
    subst hw
    cases fuel with
    | zero => simp [vsize] at hsz
    | succ f =>
      simp only [List.cons_append, List.append_assoc]
      rw [handleRequestF_succ_dollar, handle_string_exactR _ _ _ rfl]
      simp only [wfB] at hwf
      rw [utf8Decode_encode s hwf]
  case hint =>
    intro n fuel hwf hsz out rest hw
    simp only [write, Except.ok.injEq] at hw
    subst hw
    cases fuel with
    | zero => simp [vsize] at hsz
    | succ f =>
      simp only [List.cons_append, List.append_assoc]
      rw [handleRequestF_succ_colon]
      simp only [handle_integer, readline_intLineR, rstrip_intLine, parseIntBytes_intToDec]
  case herr =>
    intro m fuel hwf hsz out rest hw
    simp only [write, Except.ok.injEq] at hw
    subst hw
    simp only [wfB, List.all_eq_true] at hwf
    have hchars : ∀ c ∈ m, validCp c = true ∧ c ≠ 13 ∧ c ≠ 10 := by
      intro c hc
      have h2 := hwf c hc
      simp only [Bool.and_eq_true, Bool.not_eq_true', beq_eq_false_iff_ne] at h2
      exact ⟨h2.1.1, h2.1.2, h2.2⟩
    have hvalid : m.all validCp = true := by
      rw [List.all_eq_true]
      exact fun c hc => (hchars c hc).1
    have h13 : (13 : Nat) ∉ utf8Encode m :=
      utf8Encode_no_small_byte m 13 (by decide) (fun hin => (hchars 13 hin).2.1 rfl)
    have h10 : (10 : Nat) ∉ utf8Encode m :=
      utf8Encode_no_small_byte m 10 (by decide) (fun hin => (hchars 10 hin).2.2 rfl)
    cases fuel with
    | zero => simp [vsize] at hsz
    | succ f =>
      simp only [List.cons_append, List.append_assoc]
      rw [handleRequestF_succ_minus]
      simp only [handle_error]
      rw [readline_crlfR _ _ (fun b hb heq => h10 (heq ▸ hb))]
      rw [rstrip_crlf_clean _ (fun b hb => ⟨fun heq => h13 (heq ▸ hb), fun heq => h10 (heq ▸ hb)⟩)]
      rw [utf8Decode_encode m hvalid]
  case hbytes =>
    intro b fuel hwf
    simp [wfB] at hwf
  case hnull =>
    intro fuel hwf hsz out rest hw
    simp only [write, Except.ok.injEq] at hw
    subst hw
    cases fuel with
    | zero => simp [vsize] at hsz
    | succ f =>
      simp only [crlf, List.cons_append, List.nil_append]
      rw [handleRequestF_succ_dollar]
      exact handle_string_null rest
  case hfloat =>
    intro i fuel hwf
    simp [wfB] at hwf
  case hlist =>
    intro items ih fuel hwf hsz out rest hw
    simp only [wfB] at hwf
    cases hwa : writeAll items with
    | error e => simp [write, hwa] at hw
    | ok os =>
      simp only [write, hwa, Except.ok.injEq] at hw
      subst hw
      simp only [vsize] at hsz
      cases fuel with
      | zero => omega
      | succ f =>
        simp only [List.cons_append, List.append_assoc]
        rw [handleRequestF_succ_star]
        simp only [handle_array, readline_natLineR, rstrip_natLine, parseIntBytes_natToDec]
        rw [Int.toNat_ofNat]
        rw [ih f hwf (by omega) os rest hwa]
  case hdict =>
    intro ps ih fuel hwf hsz out rest hw
    simp only [wfB, Bool.and_eq_true] at hwf
    cases hwp : writePairs ps with
    | error e => simp [write, hwp] at hw
    | ok os =>
      simp only [write, hwp, Except.ok.injEq] at hw
      subst hw
      simp only [vsize] at hsz
      cases fuel with
      | zero => omega
      | succ f =>
        simp only [List.cons_append, List.append_assoc]
        rw [handleRequestF_succ_percent]
        simp only [handle_dict, readline_natLineR, rstrip_natLine, parseIntBytes_natToDec]
        rw [Int.toNat_ofNat]
        rw [ih f hwf.2 (by omega) os rest hwp]
        simp only [sliceEvens_interleave, sliceOdds_interleave, zip_fst_snd,
          dictFromPairs_clean ps (wfPairs_hashable ps hwf.2) hwf.1]
  case hnil3 =>
    intro fuel _ _ outs rest hw
    simp only [writeAll, Except.ok.injEq] at hw
    subst hw
    simp [manyWith]
  case hcons3 =>
    intro v rest' ihv ihr fuel hwf hsz outs rest hw
    cases hv : write v with
    | error e => simp [writeAll, hv] at hw
    | ok o =>
      cases hr : writeAll rest' with
      | error e => simp [writeAll, hv, hr] at hw
      | ok os =>
        simp only [writeAll, hv, hr, Except.ok.injEq] at hw
        subst hw
        simp only [wfList, Bool.and_eq_true] at hwf
        simp only [vsizeList] at hsz
        have hv1 := vsize_pos v
        simp only [List.length_cons, List.append_assoc, manyWith]
        rw [ihv fuel hwf.1 (by omega) o (os ++ rest) hv]
        simp only [ihr fuel hwf.2 (by omega) os rest hr]
  case hnil2 =>
    intro fuel _ _ outs rest hw
    simp only [writePairs, Except.ok.injEq] at hw
    subst hw
    simp [manyWith, interleavePairs]
  case hcons2 =>
    intro k v rest' ihk ihv ihr fuel hwf hsz outs rest hw
    cases hk : write k with
    | error e => simp [writePairs, hk] at hw
    | ok ok_ =>
      cases hv2 : write v with
      | error e => simp [writePairs, hk, hv2] at hw
      | ok ov =>
        cases hr : writePairs rest' with
        | error e => simp [writePairs, hk, hv2, hr] at hw
        | ok os =>
          simp only [writePairs, hk, hv2, hr, Except.ok.injEq] at hw
          subst hw
          simp only [wfPairs, Bool.and_eq_true] at hwf
          obtain ⟨⟨⟨hk1, _⟩, hv1⟩, hr1⟩ := hwf
          simp only [vsizePairs] at hsz
          have hkp := vsize_pos k
          have hvp := vsize_pos v
          simp only [List.length_cons]
          rw [show (rest'.length + 1) * 2 = rest'.length * 2 + 1 + 1 from by ring]
          simp only [List.append_assoc, manyWith]
          rw [ihk fuel hk1 (by omega) ok_ (ov ++ (os ++ rest)) hk]
          simp only [ihv fuel hv1 (by omega) ov (os ++ rest) hv2,
            ihr fuel hr1 (by omega) os rest hr, interleavePairs]

/-- Claim C2 (confirmed): for every Frame Value constructible from the wire
grammar — modelled by `wfB`: well-formed text, no `bytes`/`float` (the
decoder never yields them), line-safe error messages, maps with hashable
pairwise-distinct keys — encoding succeeds and decoding the encoding yields
the value back, consuming exactly the encoded bytes (an arbitrary `rest` is
left untouched); in particular the absent BulkString (`null`) round-trips
through `$-1\r\n` both ways. -/
theorem claim_C2 (v : Value) (rest : List Nat) (h : wfB v = true) :
    ∃ out, write v = .ok out ∧ handle_request (out ++ rest) = .ok (v, rest) := by
  obtain ⟨out, hout⟩ := wf_write_ok v h
  refine ⟨out, hout, ?_⟩
  have hsz : vsize v ≤ (out ++ rest).length + 1 := by
    have h1 := vsize_le_write v out hout
    simp only [List.length_append]
    omega
  exact decode_write v ((out ++ rest).length + 1) h hsz out rest hout

/-- Claim C2, witness at a nested concrete value: a Map whose value is an
Array holding a negative integer, null, and a non-ASCII string. -/
theorem claim_C2_witness :
    wfB (.dict [(.str (asc "k"), .list [.int (-5), .null, .str [233]])]) = true ∧
      ∃ out,
        write (.dict [(.str (asc "k"), .list [.int (-5), .null, .str [233]])]) = .ok out ∧
        handle_request (out ++ []) =
          .ok (.dict [(.str (asc "k"), .list [.int (-5), .null, .str [233]])], []) :=
  ⟨by decide, claim_C2 (.dict [(.str (asc "k"), .list [.int (-5), .null, .str [233]])]) []
    (by decide)⟩
